import Mathlib

/-!
Verification of the fastgpt Go client SDK (github.com/xxjwxc/fastgpt).

The development shallowly embeds the parts of the code that carry the
non-trivial behaviour:

* the SSE stream loop of ChatAPI.Chat (src/api/chat/chat.go), embedded as a
  pure function over the list of lines produced by the line scanner;
* Client.DoRequest and Client.ParseResponse (the client package), embedded
  with the external effects (JSON marshalling, request construction, the
  HTTP round trip) as explicit function parameters, and with a small JSON
  value model for ParseResponse's envelope handling.

Go strings are modelled as lists of characters (GoStr).  JSON
unmarshalling into the event structs of the model package is not
re-implemented; it enters the model as an explicit family of decoder
functions (Unmarshalers), since the Chat loop only ever observes which
decoder it selects and whether that decoder or the user callback failed.
-/

/-- A Go string, modelled as its list of characters. -/
abbrev GoStr := List Char

/-- Model of Go strings.TrimPrefix: returns s without the provided leading
prefix string; if s does not start with it, s is returned unchanged. -/
def trimPre (s pre : GoStr) : GoStr :=
  if pre.isPrefixOf s then s.drop pre.length else s

/-- Model of Go strings.Join(elems, sep): the strings of elems concatenated
with sep placed between consecutive elements (mirroring the 0/1/many case
split of the Go implementation). -/
def goJoin : List GoStr → GoStr → GoStr
  | [], _ => []
  | [x], _ => x
  | x :: xs, sep => x ++ sep ++ goJoin xs sep

/-- Concatenation of a list of strings with nothing between them at all;
used to state that the parser joins multi-line data without a separator. -/
def concatAll (l : List GoStr) : GoStr :=
  l.foldr (fun a b => a ++ b) []

/- Event payload structures from src/model/chat.go.  The parser carries
their values around opaquely, so only the shapes matter: float64 fields are
modelled with Float, and interface-typed fields with an opaque Option Unit
placeholder, since the parser never inspects either. -/

/-- model.Delta (src/model/chat.go): incremental content of a stream chunk. -/
structure Delta where
  role : String
  content : String

/-- model.Choice (src/model/chat.go): one choice of a stream chunk. -/
structure Choice where
  delta : Delta
  index : Int
  finishReason : String

/-- model.AnswerEvent (src/model/chat.go): payload of answer / fastAnswer
events. -/
structure AnswerEvent where
  id : String
  object : String
  created : Int
  model : String
  choices : List Choice

/-- model.FlowNodeStatusEvent (src/model/chat.go): payload of flowNodeStatus
events. -/
structure FlowNodeStatusEvent where
  status : String
  name : String

/-- model.HistoryPreview (src/model/chat.go). -/
structure HistoryPreview where
  obj : String
  value : String

/-- model.FlowResponse (src/model/chat.go): one element of a flowResponses
payload.  The interface-typed pluginOutput field is modelled opaquely. -/
structure FlowResponse where
  nodeId : String
  moduleName : String
  moduleType : String
  totalPoints : Float
  model : String
  tokens : Int
  query : String
  maxToken : Int
  historyPreview : List HistoryPreview
  contextTotalLen : Int
  runningTime : Float
  pluginOutput : Option Unit

/-- model.FlowResponsesEvent (src/model/chat.go): payload of flowResponses
events. -/
structure FlowResponsesEvent where
  responses : List FlowResponse

/-- model.Interactive (src/model/chat.go): payload of interactive events.
The interface-typed params field is modelled opaquely. -/
structure Interactive where
  type : String
  params : Option Unit

/-- The value handed to the user callback of ChatAPI.Chat: Go passes an
interface value that is one of the four decoded event structs or a raw
string.  Each constructor records which it was. -/
inductive EventData where
  | statusEvent (e : FlowNodeStatusEvent)
  | answerEvent (e : AnswerEvent)
  | flowEvent (e : FlowResponsesEvent)
  | interactiveEvent (e : Interactive)
  | raw (s : GoStr)

/-- One invocation of the user callback: the event name passed as the first
argument and the data value passed as the second. -/
abbrev Call := GoStr × EventData

/-- The user callback (ChatEventHandler).  A result of none models a nil
error, some e models a non-nil error of the error model type. -/
abbrev Handler (ε : Type) := GoStr → EventData → Option ε

/-- The json.Unmarshal calls made by ChatAPI.Chat, one per target struct
type, supplied as explicit functions: the loop only observes which one it
selects and whether it failed. -/
structure Unmarshalers (ε : Type) where
  flowNodeStatus : GoStr → Except ε FlowNodeStatusEvent
  answer : GoStr → Except ε AnswerEvent
  flowResponses : GoStr → Except ε FlowResponsesEvent
  interactive : GoStr → Except ε Interactive

/-- The mutable loop state of ChatAPI.Chat: the current event name and the
accumulated data lines. -/
structure ChatState where
  currentEvent : GoStr
  currentData : List GoStr
deriving Repr

/-- The observable outcome of running the Chat loop on a list of lines:
the callback invocations made in order, the final loop state, and the error
returned early (none when the loop ran to completion). -/
structure RunOut (ε : Type) where
  calls : List Call
  final : ChatState
  err : Option ε

/-- The body of the blank-line case of ChatAPI.Chat (src/api/chat/chat.go,
switch currentEvent): decodes the joined payload according to the event
name, invokes the handler, and reports the calls made together with the
error to propagate (none on success).  The answer / fastAnswer branch
special-cases the payload [DONE] by passing the raw string through. -/
def dispatch {ε : Type} (um : Unmarshalers ε) (h : Handler ε)
    (ev payload : GoStr) : List Call × Option ε :=
  if ev = "flowNodeStatus".data then
    match um.flowNodeStatus payload with
    | .error e => ([], some e)
    | .ok v => ([(ev, .statusEvent v)], h ev (.statusEvent v))
  else if ev = "answer".data ∨ ev = "fastAnswer".data then
    if payload = "[DONE]".data then
      ([(ev, .raw payload)], h ev (.raw payload))
    else
      match um.answer payload with
      | .error e => ([], some e)
      | .ok v => ([(ev, .answerEvent v)], h ev (.answerEvent v))
  else if ev = "flowResponses".data then
    match um.flowResponses payload with
    | .error e => ([], some e)
    | .ok v => ([(ev, .flowEvent v)], h ev (.flowEvent v))
  else if ev = "toolCall".data ∨ ev = "toolParams".data ∨ ev = "toolResponse".data
      ∨ ev = "updateVariables".data ∨ ev = "error".data then
    ([(ev, .raw payload)], h ev (.raw payload))
  else if ev = "interactive".data then
    match um.interactive payload with
    | .error e => ([], some e)
    | .ok v => ([(ev, .interactiveEvent v)], h ev (.interactiveEvent v))
  else
    ([(ev, .raw payload)], h ev (.raw payload))

/-- The per-data-line value computation of ChatAPI.Chat: the suffix of the
line after the data: marker, with one further leading space stripped when
the suffix is empty or starts with a space. -/
def dataValue (line : GoStr) : GoStr :=
  let value := trimPre line "data:".data
  if value = [] ∨ (" ".data).isPrefixOf value then trimPre value " ".data
  else value

/-- The scanner loop of ChatAPI.Chat (src/api/chat/chat.go), as a function
of the list of lines read from the response body.  A blank line dispatches
the accumulated event when at least one data line was collected and resets
the state to the default event name message; data: lines accumulate their
value; event: lines with a non-empty value set the current event name after
stripping one leading space; every other line is ignored. -/
def processLines {ε : Type} (um : Unmarshalers ε) (h : Handler ε) :
    List GoStr → ChatState → RunOut ε
  | [], st => ⟨[], st, none⟩
  | line :: rest, st =>
    if line = [] then
      if st.currentData.length > 0 then
        match dispatch um h st.currentEvent (goJoin st.currentData []) with
        | (cs, some e) => ⟨cs, st, some e⟩
        | (cs, none) =>
          let r := processLines um h rest ⟨"message".data, []⟩
          ⟨cs ++ r.calls, r.final, r.err⟩
      else processLines um h rest st
    else if ("data:".data).isPrefixOf line then
      processLines um h rest ⟨st.currentEvent, st.currentData ++ [dataValue line]⟩
    else if ("event:".data).isPrefixOf line then
      let value := trimPre line "event:".data
      if value ≠ [] then
        processLines um h rest ⟨trimPre value " ".data, st.currentData⟩
      else processLines um h rest st
    else processLines um h rest st

/-- The loop state at entry of ChatAPI.Chat: Go zero values, so the current
event name starts as the empty string and no data is accumulated. -/
def initState : ChatState := ⟨[], []⟩

/-- The whole SSE consumption phase of ChatAPI.Chat, starting from the zero
state. -/
def chat {ε : Type} (um : Unmarshalers ε) (h : Handler ε)
    (lines : List GoStr) : RunOut ε :=
  processLines um h lines initState

/-! ### General lemmas about the string primitives and the loop steps -/

theorem isPre_append (p s : GoStr) : p.isPrefixOf (p ++ s) = true := by
  induction p with
  | nil => cases s <;> rfl
  | cons a as ih => simp [List.isPrefixOf, ih]

theorem trimPre_append (p s : GoStr) : trimPre (p ++ s) p = s := by
  simp [trimPre, isPre_append, List.drop_left]

theorem step_data {ε : Type} (um : Unmarshalers ε) (h : Handler ε) (s : GoStr)
    (rest : List GoStr) (st : ChatState) :
    processLines um h (("data:".data ++ s) :: rest) st
      = processLines um h rest
          ⟨st.currentEvent, st.currentData ++ [dataValue ("data:".data ++ s)]⟩ := by
  have h1 : ("data:".data ++ s) ≠ ([] : GoStr) := by
    rw [show "data:".data ++ s = 'd' :: ("ata:".data ++ s) from rfl]
    simp
  simp only [processLines, if_neg h1, isPre_append, if_pos]

theorem step_event {ε : Type} (um : Unmarshalers ε) (h : Handler ε) (v : GoStr)
    (rest : List GoStr) (st : ChatState) (hv : v ≠ []) :
    processLines um h (("event:".data ++ v) :: rest) st
      = processLines um h rest ⟨trimPre v " ".data, st.currentData⟩ := by
  have h1 : ("event:".data ++ v) ≠ ([] : GoStr) := by
    rw [show "event:".data ++ v = 'e' :: ("vent:".data ++ v) from rfl]
    simp
  have h2 : ("data:".data).isPrefixOf ("event:".data ++ v) = false := rfl
  simp only [processLines, if_neg h1, h2, Bool.false_eq_true, if_false,
    isPre_append, if_pos, trimPre_append, ne_eq, hv, if_true, if_neg]
  simp

theorem step_event_nil {ε : Type} (um : Unmarshalers ε) (h : Handler ε)
    (rest : List GoStr) (st : ChatState) :
    processLines um h ("event:".data :: rest) st = processLines um h rest st := rfl

theorem step_blank_err {ε : Type} (um : Unmarshalers ε) (h : Handler ε)
    (rest : List GoStr) (st : ChatState) (cs : List Call) (e : ε)
    (hne : st.currentData ≠ [])
    (hd : dispatch um h st.currentEvent (goJoin st.currentData []) = (cs, some e)) :
    processLines um h ([] :: rest) st = ⟨cs, st, some e⟩ := by
  have hl : st.currentData.length > 0 := List.length_pos.mpr hne
  simp only [processLines, if_pos rfl, if_pos hl, hd]
  exact if_pos trivial

theorem step_blank_ok {ε : Type} (um : Unmarshalers ε) (h : Handler ε)
    (rest : List GoStr) (st : ChatState) (cs : List Call)
    (hne : st.currentData ≠ [])
    (hd : dispatch um h st.currentEvent (goJoin st.currentData []) = (cs, none)) :
    processLines um h ([] :: rest) st =
      ⟨cs ++ (processLines um h rest ⟨"message".data, []⟩).calls,
       (processLines um h rest ⟨"message".data, []⟩).final,
       (processLines um h rest ⟨"message".data, []⟩).err⟩ := by
  have hl : st.currentData.length > 0 := List.length_pos.mpr hne
  simp only [processLines, if_pos rfl, if_pos hl, hd]
  exact if_pos trivial

theorem step_blank_nodata {ε : Type} (um : Unmarshalers ε) (h : Handler ε)
    (rest : List GoStr) (st : ChatState) (hne : st.currentData = []) :
    processLines um h ([] :: rest) st = processLines um h rest st := by
  simp only [processLines, if_pos rfl, hne]
  rfl

theorem step_other {ε : Type} (um : Unmarshalers ε) (h : Handler ε) (line : GoStr)
    (rest : List GoStr) (st : ChatState) (hb : line ≠ [])
    (hd : ("data:".data).isPrefixOf line = false)
    (he : ("event:".data).isPrefixOf line = false) :
    processLines um h (line :: rest) st = processLines um h rest st := by
  simp only [processLines, if_neg hb, hd, he, Bool.false_eq_true, if_false]

theorem processLines_append_of_err {ε : Type} (um : Unmarshalers ε) (h : Handler ε)
    (l2 : List GoStr) :
    ∀ (l1 : List GoStr) (st : ChatState) (e : ε),
      (processLines um h l1 st).err = some e →
      processLines um h (l1 ++ l2) st = processLines um h l1 st := by
  intro l1
  induction l1 with
  | nil => intro st e h0; simp [processLines] at h0
  | cons line rest ih =>
    intro st e h0
    simp only [List.cons_append]
    by_cases hb : line = []
    · subst hb
      by_cases hl : st.currentData = []
      · rw [step_blank_nodata um h (rest ++ l2) st hl, step_blank_nodata um h rest st hl]
        rw [step_blank_nodata um h rest st hl] at h0
        exact ih st e h0
      · rcases hdd : dispatch um h st.currentEvent (goJoin st.currentData []) with ⟨cs, e?⟩
        cases e? with
        | some e2 =>
          rw [step_blank_err um h (rest ++ l2) st cs e2 hl hdd,
            step_blank_err um h rest st cs e2 hl hdd]
        | none =>
          rw [step_blank_ok um h (rest ++ l2) st cs hl hdd,
            step_blank_ok um h rest st cs hl hdd]
          rw [step_blank_ok um h rest st cs hl hdd] at h0
          simp only at h0
          rw [ih ⟨"message".data, []⟩ e h0]
    · by_cases hd : ("data:".data).isPrefixOf line = true
      · obtain ⟨t, rfl⟩ := List.isPrefixOf_iff_prefix.mp hd
        rw [step_data um h t (rest ++ l2) st, step_data um h t rest st]
        rw [step_data um h t rest st] at h0
        exact ih _ e h0
      · by_cases he : ("event:".data).isPrefixOf line = true
        · obtain ⟨v, rfl⟩ := List.isPrefixOf_iff_prefix.mp he
          by_cases hv : v = []
          · subst hv
            simp only [List.append_nil] at h0 ⊢
            rw [step_event_nil um h (rest ++ l2) st, step_event_nil um h rest st]
            rw [step_event_nil um h rest st] at h0
            exact ih st e h0
          · rw [step_event um h v (rest ++ l2) st hv, step_event um h v rest st hv]
            rw [step_event um h v rest st hv] at h0
            exact ih _ e h0
        · rw [step_other um h line (rest ++ l2) st hb (Bool.not_eq_true _ |>.mp hd)
              (Bool.not_eq_true _ |>.mp he),
            step_other um h line rest st hb (Bool.not_eq_true _ |>.mp hd)
              (Bool.not_eq_true _ |>.mp he)]
          rw [step_other um h line rest st hb (Bool.not_eq_true _ |>.mp hd)
            (Bool.not_eq_true _ |>.mp he)] at h0
          exact ih st e h0

/-! ### Concrete instances used to evaluate the model on closed inputs -/

/-- Unmarshalers over Nat-coded errors: flowNodeStatus, flowResponses and
interactive always fail (with distinct codes), answer always succeeds with a
zero AnswerEvent. -/
def natUm : Unmarshalers Nat where
  flowNodeStatus := fun _ => .error 7
  answer := fun _ => .ok ⟨"", "", 0, "", []⟩
  flowResponses := fun _ => .error 3
  interactive := fun _ => .error 4

/-- A second unmarshaler family, everywhere failing with a different code. -/
def natUm2 : Unmarshalers Nat where
  flowNodeStatus := fun _ => .error 9
  answer := fun _ => .error 9
  flowResponses := fun _ => .error 9
  interactive := fun _ => .error 9

/-- A handler that always succeeds. -/
def okH : Handler Nat := fun _ _ => none

theorem goJoin_nil_sep : ∀ l : List GoStr, goJoin l [] = concatAll l
  | [] => rfl
  | [x] => by simp [goJoin, concatAll]
  | x :: y :: xs => by
    have ih := goJoin_nil_sep (y :: xs)
    simp only [goJoin, concatAll, List.foldr] at ih ⊢
    rw [List.append_nil, ih]

/-- C3: when an event with accumulated data lines is dispatched on a blank
line, the payload handed to dispatch (and hence to unmarshalling or to the
callback) is the plain concatenation of the accumulated values in stream
order, with no separator between them. -/
theorem dispatchPayloadIsConcat {ε : Type} (um : Unmarshalers ε) (h : Handler ε)
    (rest : List GoStr) (st : ChatState) (hne : st.currentData ≠ []) :
    goJoin st.currentData [] = concatAll st.currentData
    ∧ (∀ cs e, dispatch um h st.currentEvent (concatAll st.currentData) = (cs, some e) →
        processLines um h ([] :: rest) st = ⟨cs, st, some e⟩)
    ∧ (∀ cs, dispatch um h st.currentEvent (concatAll st.currentData) = (cs, none) →
        processLines um h ([] :: rest) st =
          ⟨cs ++ (processLines um h rest ⟨"message".data, []⟩).calls,
           (processLines um h rest ⟨"message".data, []⟩).final,
           (processLines um h rest ⟨"message".data, []⟩).err⟩) := by
  refine ⟨goJoin_nil_sep st.currentData, ?_, ?_⟩
  · intro cs e hd
    exact step_blank_err um h rest st cs e hne (by rw [goJoin_nil_sep]; exact hd)
  · intro cs hd
    exact step_blank_ok um h rest st cs hne (by rw [goJoin_nil_sep]; exact hd)

theorem dispatchPayloadIsConcat_witness :
    processLines natUm okH [[]] ⟨"toolCall".data, ["ab".data, "cd".data]⟩ =
      ⟨[("toolCall".data, .raw "abcd".data)], ⟨"message".data, []⟩, none⟩ := by
  have t := dispatchPayloadIsConcat natUm okH []
    ⟨"toolCall".data, ["ab".data, "cd".data]⟩ (by simp)
  have h2 := t.2.2 [("toolCall".data, .raw "abcd".data)] rfl
  simpa using h2

/-- C4: a line beginning with data: contributes the suffix after the marker
with exactly one leading space removed when one is present, and unchanged
otherwise; in particular a one-space and a zero-space line both yield the
bare value, while a two-space line keeps one space. -/
theorem dataValueStripsOneSpace :
    (∀ s : GoStr, dataValue ("data:".data ++ s)
        = (match s with | ' ' :: t => t | _ => s))
    ∧ dataValue "data: x".data = "x".data
    ∧ dataValue "data:x".data = "x".data
    ∧ dataValue "data:  x".data = " x".data := by
  refine ⟨?_, rfl, rfl, rfl⟩
  intro s
  match s with
  | [] => rfl
  | ' ' :: t =>
    simp [dataValue, trimPre_append, List.isPrefixOf, trimPre]
  | c :: t =>
    by_cases hc : c = ' '
    · subst hc; simp [dataValue, trimPre_append, List.isPrefixOf, trimPre]
    · simp only [dataValue, trimPre_append, List.isPrefixOf]
      have h2 : (' ' == c) = false := by
        simp [beq_iff_eq]; exact fun h2 => hc h2.symm
      simp [h2, hc]

/-- C6: a JSON-decode error or a callback error at a dispatch is returned
as-is and stops the stream: the lines after the failing one contribute
nothing (same calls, same error), and a failing dispatch on a blank line
yields exactly the calls made so far with that error. -/
theorem errorStopsProcessing {ε : Type} (um : Unmarshalers ε) (h : Handler ε)
    (l1 l2 : List GoStr) (st : ChatState) (e : ε) :
    ((processLines um h l1 st).err = some e →
      processLines um h (l1 ++ l2) st = processLines um h l1 st)
    ∧ (∀ rest cs, st.currentData ≠ [] →
        dispatch um h st.currentEvent (goJoin st.currentData []) = (cs, some e) →
        processLines um h ([] :: rest) st = ⟨cs, st, some e⟩) := by
  exact ⟨processLines_append_of_err um h l2 l1 st e,
    fun rest cs hne hd => step_blank_err um h rest st cs e hne hd⟩

theorem errorStopsProcessing_witness :
    processLines natUm okH
        (["event: flowNodeStatus".data, "data: x".data, []] ++ ["data: y".data, []])
        initState
      = processLines natUm okH ["event: flowNodeStatus".data, "data: x".data, []] initState
    ∧ processLines natUm okH [[]] ⟨"flowNodeStatus".data, ["x".data]⟩
        = ⟨[], ⟨"flowNodeStatus".data, ["x".data]⟩, some 7⟩ := by
  constructor
  · exact (errorStopsProcessing natUm okH
      ["event: flowNodeStatus".data, "data: x".data, []] ["data: y".data, []]
      initState 7).1 rfl
  · exact (errorStopsProcessing natUm okH [] []
      ⟨"flowNodeStatus".data, ["x".data]⟩ 7).2 [] [] (by simp) rfl

/-- C7: the current event name is parser state: an event: line with a
non-empty value sets it (to the value with one leading space stripped),
data: lines accumulate without touching it, and a successful blank-line
dispatch uses it and then resets it to the default name message. -/
theorem eventNameLifecycle {ε : Type} (um : Unmarshalers ε) (h : Handler ε)
    (v s : GoStr) (rest : List GoStr) (st : ChatState) :
    (v ≠ [] → processLines um h (("event:".data ++ v) :: rest) st
        = processLines um h rest ⟨trimPre v " ".data, st.currentData⟩)
    ∧ processLines um h (("data:".data ++ s) :: rest) st
        = processLines um h rest
            ⟨st.currentEvent, st.currentData ++ [dataValue ("data:".data ++ s)]⟩
    ∧ (∀ cs, st.currentData ≠ [] →
        dispatch um h st.currentEvent (goJoin st.currentData []) = (cs, none) →
        processLines um h ([] :: rest) st =
          ⟨cs ++ (processLines um h rest ⟨"message".data, []⟩).calls,
           (processLines um h rest ⟨"message".data, []⟩).final,
           (processLines um h rest ⟨"message".data, []⟩).err⟩) := by
  exact ⟨fun hv => step_event um h v rest st hv,
    step_data um h s rest st,
    fun cs hne hd => step_blank_ok um h rest st cs hne hd⟩

theorem eventNameLifecycle_witness :
    processLines natUm okH ["event: toolCall".data] initState
      = processLines natUm okH [] ⟨"toolCall".data, []⟩
    ∧ processLines natUm okH [[]] ⟨"toolCall".data, ["z".data]⟩
        = ⟨[("toolCall".data, .raw "z".data)], ⟨"message".data, []⟩, none⟩ := by
  constructor
  · have t := (eventNameLifecycle natUm okH " toolCall".data [] [] initState).1
      (by simp)
    simpa using t
  · have t := (eventNameLifecycle natUm okH [] [] [] ⟨"toolCall".data, ["z".data]⟩).2.2
      [("toolCall".data, .raw "z".data)] (by simp) rfl
    simpa using t

/-- C2 counterexample: an event: line directly followed by a blank line,
with no data: lines in between, produces no callback invocation at all (the
run ends with an empty call list and no error). -/
theorem emptyDispatchSkipped_cex :
    chat natUm okH ["event: answer".data, []] = ⟨[], ⟨"answer".data, []⟩, none⟩ := rfl

/-- C2 amended: a blank line dispatches the accumulated event only when at
least one data: line has been collected; with none collected the blank line
changes nothing, and with some collected the dispatch calls open the
remaining call list. -/
theorem blankDispatchRequiresData {ε : Type} (um : Unmarshalers ε) (h : Handler ε)
    (rest : List GoStr) (st : ChatState) :
    (st.currentData = [] → processLines um h ([] :: rest) st = processLines um h rest st)
    ∧ (st.currentData ≠ [] →
        (dispatch um h st.currentEvent (goJoin st.currentData [])).1
          <+: (processLines um h ([] :: rest) st).calls) := by
  constructor
  · exact fun hd => step_blank_nodata um h rest st hd
  · intro hne
    rcases hd : dispatch um h st.currentEvent (goJoin st.currentData []) with ⟨cs, e?⟩
    cases e? with
    | some e => rw [step_blank_err um h rest st cs e hne hd]
    | none =>
      rw [step_blank_ok um h rest st cs hne hd]
      exact ⟨_, rfl⟩

theorem blankDispatchRequiresData_witness :
    processLines natUm okH [[]] ⟨"answer".data, []⟩ = processLines natUm okH [] ⟨"answer".data, []⟩
    ∧ [("toolCall".data, (.raw "z".data : EventData))]
        <+: (processLines natUm okH [[]] ⟨"toolCall".data, ["z".data]⟩).calls := by
  constructor
  · exact (blankDispatchRequiresData natUm okH [] ⟨"answer".data, []⟩).1 rfl
  · have t := (blankDispatchRequiresData natUm okH [] ⟨"toolCall".data, ["z".data]⟩).2
      (by simp)
    simpa using t

/-- C1 counterexample: the [DONE] payload neither terminates the stream
(after an answer event carrying [DONE] the parser keeps dispatching: the
run below makes a second callback) nor is it spared JSON unmarshalling for
other event names (a flowNodeStatus event with payload [DONE] is fed to the
flowNodeStatus unmarshaler, whose error code 7 comes back out). -/
theorem doneNotSentinel_cex :
    (chat natUm okH ["event: answer".data, "data: [DONE]".data, [],
        "event: answer".data, "data: x".data, []]).calls.length = 2
    ∧ (chat natUm okH ["event: flowNodeStatus".data, "data: [DONE]".data, []]).err
        = some 7 := ⟨rfl, rfl⟩

/-- C1 amended: only for the event names answer and fastAnswer is a payload
equal to [DONE] special-cased: no unmarshaler is consulted (the dispatch
result does not depend on the unmarshaler family), the callback receives
the raw string, and after a successful callback the parser resets its state
and keeps processing the remaining lines rather than terminating. -/
theorem doneSentinelAnswerOnly {ε : Type} (um um' : Unmarshalers ε) (h : Handler ε)
    (ev : GoStr) (st : ChatState) (rest : List GoStr)
    (hev : ev = "answer".data ∨ ev = "fastAnswer".data) :
    dispatch um h ev "[DONE]".data
        = ([(ev, .raw "[DONE]".data)], h ev (.raw "[DONE]".data))
    ∧ dispatch um h ev "[DONE]".data = dispatch um' h ev "[DONE]".data
    ∧ (st.currentEvent = ev → st.currentData = ["[DONE]".data] →
        h ev (.raw "[DONE]".data) = none →
        processLines um h ([] :: rest) st =
          ⟨(ev, .raw "[DONE]".data) :: (processLines um h rest ⟨"message".data, []⟩).calls,
           (processLines um h rest ⟨"message".data, []⟩).final,
           (processLines um h rest ⟨"message".data, []⟩).err⟩) := by
  have h1 : dispatch um h ev "[DONE]".data
      = ([(ev, .raw "[DONE]".data)], h ev (.raw "[DONE]".data)) := by
    rcases hev with hev | hev <;> subst hev <;> rfl
  have h2 : dispatch um' h ev "[DONE]".data
      = ([(ev, .raw "[DONE]".data)], h ev (.raw "[DONE]".data)) := by
    rcases hev with hev | hev <;> subst hev <;> rfl
  refine ⟨h1, h1.trans h2.symm, ?_⟩
  intro hce hcd hnone
  have hd : dispatch um h st.currentEvent (goJoin st.currentData [])
      = ([(ev, .raw "[DONE]".data)], none) := by
    rw [hce, hcd]
    show dispatch um h ev "[DONE]".data = _
    rw [h1, hnone]
  have := step_blank_ok um h rest st [(ev, .raw "[DONE]".data)]
    (by rw [hcd]; simp) hd
  simpa using this

theorem doneSentinelAnswerOnly_witness :
    dispatch natUm okH "answer".data "[DONE]".data
        = ([("answer".data, .raw "[DONE]".data)], none)
    ∧ dispatch natUm okH "answer".data "[DONE]".data
        = dispatch natUm2 okH "answer".data "[DONE]".data
    ∧ processLines natUm okH [[], "data: x".data, []]
          ⟨"answer".data, ["[DONE]".data]⟩
        = ⟨[("answer".data, .raw "[DONE]".data),
            ("message".data, .raw "x".data)], ⟨"message".data, []⟩, none⟩ := by
  have t := doneSentinelAnswerOnly natUm natUm2 okH "answer".data
    ⟨"answer".data, ["[DONE]".data]⟩ ["data: x".data, []] (Or.inl rfl)
  refine ⟨t.1, t.2.1, ?_⟩
  have h3 := t.2.2 rfl rfl rfl
  rw [h3]
  rfl

/-- C9: the current event name starts as the Go zero value, the empty
string: a data line arriving before any event: line is dispatched with the
empty event name through the default passthrough branch (independently of
the unmarshalers), and only after that first dispatch does the state reset
to the default name message. -/
theorem initialEventNameEmpty {ε : Type} (um : Unmarshalers ε) (h : Handler ε)
    (s : GoStr) (rest : List GoStr) :
    initState.currentEvent = "".data
    ∧ (∀ (um' : Unmarshalers ε) (p : GoStr),
        dispatch um h [] p = dispatch um' h [] p)
    ∧ (chat um h (("data:".data ++ s) :: [] :: rest)).calls.head? =
        some (([] : GoStr), .raw (dataValue ("data:".data ++ s)))
    ∧ (h [] (.raw (dataValue ("data:".data ++ s))) = none →
        chat um h (("data:".data ++ s) :: [] :: rest) =
          ⟨([], .raw (dataValue ("data:".data ++ s)))
              :: (processLines um h rest ⟨"message".data, []⟩).calls,
           (processLines um h rest ⟨"message".data, []⟩).final,
           (processLines um h rest ⟨"message".data, []⟩).err⟩) := by
  have hstep : chat um h (("data:".data ++ s) :: [] :: rest)
      = processLines um h ([] :: rest) ⟨[], [dataValue ("data:".data ++ s)]⟩ := by
    show processLines um h (("data:".data ++ s) :: [] :: rest) initState = _
    rw [step_data um h s ([] :: rest) initState]
    rfl
  have hdisp : ∀ e?, h [] (.raw (dataValue ("data:".data ++ s))) = e? →
      dispatch um h [] (goJoin [dataValue ("data:".data ++ s)] [])
        = ([(([] : GoStr), .raw (dataValue ("data:".data ++ s)))], e?) := by
    intro e? he
    rw [show goJoin [dataValue ("data:".data ++ s)] [] = dataValue ("data:".data ++ s) from rfl]
    rw [show dispatch um h [] (dataValue ("data:".data ++ s))
        = ([(([] : GoStr), .raw (dataValue ("data:".data ++ s)))],
           h [] (.raw (dataValue ("data:".data ++ s)))) from rfl, he]
  refine ⟨rfl, fun um' p => rfl, ?_, ?_⟩
  · rw [hstep]
    rcases he : h [] (.raw (dataValue ("data:".data ++ s))) with _ | e
    · rw [step_blank_ok um h rest _ _ (by simp) (hdisp none he)]
      rfl
    · rw [step_blank_err um h rest _ _ e (by simp) (hdisp (some e) he)]
      rfl
  · intro he
    rw [hstep, step_blank_ok um h rest _ _ (by simp) (hdisp none he)]
    rfl

theorem initialEventNameEmpty_witness :
    chat natUm okH ["data:a".data, [], "data:b".data, []]
      = ⟨[(([] : GoStr), .raw "a".data), ("message".data, .raw "b".data)],
         ⟨"message".data, []⟩, none⟩ := by
  have t := (initialEventNameEmpty natUm okH "a".data ["data:b".data, []]).2.2.2 rfl
  rw [show ("data:a".data : GoStr) = "data:".data ++ "a".data from rfl]
  rw [t]
  rfl

/-- The five possible shapes of a value handed to the callback. -/
inductive DecodeKind where
  | statusK
  | answerK
  | flowK
  | interK
  | rawK
deriving DecidableEq

/-- The shape a given EventData value actually has. -/
def kindOf : EventData → DecodeKind
  | .statusEvent _ => .statusK
  | .answerEvent _ => .answerK
  | .flowEvent _ => .flowK
  | .interactiveEvent _ => .interK
  | .raw _ => .rawK

/-- Modelled from the spec: the event-name-keyed decode table the spec
describes for ChatAPI.Chat — flowNodeStatus to the node-status struct,
answer and fastAnswer to the answer struct, flowResponses to the
flow-responses struct, interactive to the interactive struct, and every
other name (the tool-call variants included) passed through raw. -/
def specDecodeKind (ev : GoStr) : DecodeKind :=
  if ev = "flowNodeStatus".data then .statusK
  else if ev = "answer".data ∨ ev = "fastAnswer".data then .answerK
  else if ev = "flowResponses".data then .flowK
  else if ev = "interactive".data then .interK
  else .rawK

/-- C5 counterexample: a dispatched answer event whose payload is [DONE] is
handed to the callback as a raw string, not decoded into the answer
struct the claimed table prescribes for the name answer. -/
theorem dispatchDoneRawKind_cex :
    ¬ (∀ c ∈ (dispatch natUm okH "answer".data "[DONE]".data).1,
        kindOf c.2 = specDecodeKind c.1) := by
  intro hall
  have hm : ("answer".data, (.raw "[DONE]".data : EventData))
      ∈ (dispatch natUm okH "answer".data "[DONE]".data).1 := by
    rw [show (dispatch natUm okH "answer".data "[DONE]".data).1
        = [("answer".data, (.raw "[DONE]".data : EventData))] from rfl]
    exact List.mem_singleton.mpr rfl
  have := hall _ hm
  rw [show kindOf (.raw "[DONE]".data) = .rawK from rfl,
    show specDecodeKind "answer".data = .answerK from rfl] at this
  exact DecodeKind.noConfusion this

/-- C5 amended: away from the [DONE]-for-answer/fastAnswer sentinel case,
every value a dispatch hands to the callback carries the dispatched event
name and has exactly the shape of the claimed decode table — the
node-status, answer, flow-responses or interactive struct for those four
names, and the raw joined payload (produced without consulting any
unmarshaler) for the tool-call variants and every other name. -/
theorem dispatchKindTable {ε : Type} (um um' : Unmarshalers ε) (h : Handler ε)
    (ev payload : GoStr)
    (hnd : ¬(payload = "[DONE]".data ∧ (ev = "answer".data ∨ ev = "fastAnswer".data))) :
    (∀ c ∈ (dispatch um h ev payload).1,
        c.1 = ev ∧ kindOf c.2 = specDecodeKind ev
          ∧ (specDecodeKind ev = .rawK → c.2 = .raw payload))
    ∧ (specDecodeKind ev = .rawK → dispatch um h ev payload = dispatch um' h ev payload) := by
  by_cases h1 : ev = "flowNodeStatus".data
  · simp only [dispatch, specDecodeKind, if_pos h1]
    constructor
    · intro c hc
      rcases hum : um.flowNodeStatus payload with e | v <;> rw [hum] at hc
      · simp at hc
      · simp only [List.mem_singleton] at hc
        subst hc
        exact ⟨rfl, rfl, fun hk => DecodeKind.noConfusion hk⟩
    · intro hk
      exact absurd hk (fun hk => DecodeKind.noConfusion hk)
  · by_cases h2 : ev = "answer".data ∨ ev = "fastAnswer".data
    · have hp : payload ≠ "[DONE]".data := fun hp => hnd ⟨hp, h2⟩
      simp only [dispatch, specDecodeKind, if_neg h1, if_pos h2, if_neg hp]
      constructor
      · intro c hc
        rcases hum : um.answer payload with e | v <;> rw [hum] at hc
        · simp at hc
        · simp only [List.mem_singleton] at hc
          subst hc
          exact ⟨rfl, rfl, fun hk => DecodeKind.noConfusion hk⟩
      · intro hk
        exact absurd hk (fun hk => DecodeKind.noConfusion hk)
    · by_cases h3 : ev = "flowResponses".data
      · simp only [dispatch, specDecodeKind, if_neg h1, if_neg h2, if_pos h3]
        constructor
        · intro c hc
          rcases hum : um.flowResponses payload with e | v <;> rw [hum] at hc
          · simp at hc
          · simp only [List.mem_singleton] at hc
            subst hc
            exact ⟨rfl, rfl, fun hk => DecodeKind.noConfusion hk⟩
        · intro hk
          exact absurd hk (fun hk => DecodeKind.noConfusion hk)
      · by_cases h4 : ev = "toolCall".data ∨ ev = "toolParams".data
            ∨ ev = "toolResponse".data ∨ ev = "updateVariables".data ∨ ev = "error".data
        · have h5 : ev ≠ "interactive".data := by
            rcases h4 with h4 | h4 | h4 | h4 | h4 <;> subst h4 <;> decide
          simp only [dispatch, specDecodeKind, if_neg h1, if_neg h2, if_neg h3,
            if_pos h4, if_neg h5]
          refine ⟨?_, fun _ => by trivial⟩
          intro c hc
          simp only [List.mem_singleton] at hc
          subst hc
          exact ⟨rfl, by trivial, fun _ => rfl⟩
        · by_cases h5 : ev = "interactive".data
          · simp only [dispatch, specDecodeKind, if_neg h1, if_neg h2, if_neg h3,
              if_neg h4, if_pos h5]
            constructor
            · intro c hc
              rcases hum : um.interactive payload with e | v <;> rw [hum] at hc
              · simp at hc
              · simp only [List.mem_singleton] at hc
                subst hc
                exact ⟨rfl, rfl, fun hk => DecodeKind.noConfusion hk⟩
            · intro hk
              exact absurd hk (fun hk => DecodeKind.noConfusion hk)
          · simp only [dispatch, specDecodeKind, if_neg h1, if_neg h2, if_neg h3,
              if_neg h4, if_neg h5]
            refine ⟨?_, fun _ => by trivial⟩
            intro c hc
            simp only [List.mem_singleton] at hc
            subst hc
            exact ⟨rfl, by trivial, fun _ => rfl⟩

theorem dispatchKindTable_witness :
    (∀ c ∈ (dispatch natUm okH "answer".data "x".data).1,
        c.1 = "answer".data ∧ kindOf c.2 = specDecodeKind "answer".data)
    ∧ dispatch natUm okH "toolCall".data "y".data
        = dispatch natUm2 okH "toolCall".data "y".data := by
  have t1 := dispatchKindTable natUm natUm2 okH "answer".data "x".data
    (by intro hx; exact absurd hx.1 (by decide))
  have t2 := dispatchKindTable natUm natUm2 okH "toolCall".data "y".data
    (by intro hx; rcases hx.2 with hx2 | hx2 <;> exact absurd hx2 (by decide))
  exact ⟨fun c hc => ⟨(t1.1 c hc).1, (t1.1 c hc).2.1⟩, t2.2 rfl⟩

/-! ### Client.DoRequest (client package) -/

/-- client.Client: the configuration DoRequest reads (the underlying HTTP
client object itself is modelled by the transport function parameter). -/
structure Client where
  baseURL : String
  apiKey : String
  debug : Bool

/-- http.Request as far as DoRequest builds one: method, URL, optional body
and headers. -/
structure Request where
  method : String
  url : String
  reqBody : Option String
  headers : List (String × String)

/-- http.Header.Set: replaces any existing values of the key. -/
def setHeader (hs : List (String × String)) (k v : String) : List (String × String) :=
  hs.filter (fun p => p.1 != k) ++ [(k, v)]

/-- The three header writes DoRequest performs on the request it built. -/
def withStdHeaders (c : Client) (req : Request) : Request :=
  let h1 := setHeader req.headers "Authorization" ("Bearer " ++ c.apiKey)
  let h2 := setHeader h1 "Content-Type" "application/json"
  let h3 := setHeader h2 "User-Agent" "go-fastgpt-client"
  { req with headers := h3 }

/-- The body-marshalling phase of DoRequest: a nil body produces no request
body, a non-nil body is marshalled to JSON text (failures propagate). -/
def requestBodyOf {α ε : Type} (body : Option α) (marshal : α → Except ε String) :
    Except ε (Option String) :=
  match body with
  | none => .ok none
  | some b => (marshal b).map some

/-- Client.DoRequest: marshal the body, build the request, set the three
headers, and run the HTTP round trip.  Marshalling, request construction
and the round trip are the effects of the Go code and enter as function
parameters; the second component counts how many times the round trip was
invoked. -/
def doRequest {α ρ ε : Type} (c : Client) (method path : String) (body : Option α)
    (marshal : α → Except ε String)
    (newRequest : String → String → Option String → Except ε Request)
    (transport : Request → Except ε ρ) : Except ε ρ × Nat :=
  match requestBodyOf body marshal with
  | .error e => (.error e, 0)
  | .ok reqBody =>
    match newRequest method (c.baseURL ++ path) reqBody with
    | .error e => (.error e, 0)
    | .ok req => (transport (withStdHeaders c req), 1)

/-- C8: DoRequest performs at most one HTTP round trip and never retries:
a marshalling error and a request-construction error are returned with the
round trip never invoked, and otherwise the round trip's own result —
error or not — is returned directly after exactly one invocation. -/
theorem doRequestAtMostOne {α ρ ε : Type} (c : Client) (method path : String)
    (body : Option α) (marshal : α → Except ε String)
    (newRequest : String → String → Option String → Except ε Request)
    (transport : Request → Except ε ρ) :
    (doRequest c method path body marshal newRequest transport).2 ≤ 1
    ∧ (∀ e, requestBodyOf body marshal = .error e →
        doRequest c method path body marshal newRequest transport = (.error e, 0))
    ∧ (∀ rb e, requestBodyOf body marshal = .ok rb →
        newRequest method (c.baseURL ++ path) rb = .error e →
        doRequest c method path body marshal newRequest transport = (.error e, 0))
    ∧ (∀ rb req, requestBodyOf body marshal = .ok rb →
        newRequest method (c.baseURL ++ path) rb = .ok req →
        doRequest c method path body marshal newRequest transport
          = (transport (withStdHeaders c req), 1)) := by
  refine ⟨?_, ?_, ?_, ?_⟩
  · rcases hrb : requestBodyOf body marshal with e | rb
    · simp [doRequest, hrb]
    · rcases hnr : newRequest method (c.baseURL ++ path) rb with e | req
      · simp [doRequest, hrb, hnr]
      · simp [doRequest, hrb, hnr]
  · intro e hrb
    simp [doRequest, hrb]
  · intro rb e hrb hnr
    simp [doRequest, hrb, hnr]
  · intro rb req hrb hnr
    simp [doRequest, hrb, hnr]

theorem doRequestAtMostOne_witness :
    doRequest (Client.mk "https://host" "k" false) "POST" "/p"
        (some ()) (fun _ => (.error "marshal failed" : Except String String))
        (fun _ _ _ => .error "unused") (fun _ => (.error "unused" : Except String Unit))
      = (.error "marshal failed", 0)
    ∧ (doRequest (Client.mk "https://host" "k" false) "GET" "/q"
        (none : Option Unit) (fun _ => (.error "unused" : Except String String))
        (fun m u b => .ok ⟨m, u, b, []⟩) (fun _ => (.ok () : Except String Unit))).2 ≤ 1 := by
  constructor
  · exact (doRequestAtMostOne (Client.mk "https://host" "k" false) "POST" "/p"
      (some ()) (fun _ => .error "marshal failed")
      (fun _ _ _ => .error "unused") (fun _ => .error "unused")).2.1 "marshal failed" rfl
  · exact (doRequestAtMostOne (Client.mk "https://host" "k" false) "GET" "/q"
      (none : Option Unit) (fun _ => .error "unused")
      (fun m u b => .ok ⟨m, u, b, []⟩) (fun _ => .ok ())).1

/-! ### Client.ParseResponse (client package) -/

/-- A JSON value, for the envelope handling of Client.ParseResponse.
Numbers are modelled as rationals. -/
inductive JValue where
  | jnull
  | jbool (b : Bool)
  | jnum (q : Rat)
  | jstr (s : String)
  | jarr (elems : List JValue)
  | jobj (fields : List (String × JValue))

/-- model.BaseResponse (src/model/dataset.go): the standard response
envelope.  The RawMessage data field holds the raw sub-value when present;
none models a nil RawMessage (field absent). -/
structure BaseResponse where
  code : Int
  statusText : String
  message : String
  data : Option JValue

/-- The Go zero value of BaseResponse. -/
def zeroBase : BaseResponse := ⟨0, "", "", none⟩

/-- One field of a JSON object decoded into BaseResponse, Go-style: known
fields must have the matching type (an integral number for code, strings
for statusText and message, anything for the RawMessage data), a JSON null
leaves the field alone, unknown fields are skipped, and the first type
error is recorded while decoding continues. -/
def decBaseField (acc : BaseResponse × Option String) (f : String × JValue) :
    BaseResponse × Option String :=
  if f.1 = "code" then
    match f.2 with
    | .jnum q =>
      if q.den = 1 then ({acc.1 with code := q.num}, acc.2)
      else (acc.1, acc.2 <|> some "json: cannot unmarshal number into field code of type int")
    | .jnull => acc
    | _ => (acc.1, acc.2 <|> some "json: cannot unmarshal value into field code of type int")
  else if f.1 = "statusText" then
    match f.2 with
    | .jstr s => ({acc.1 with statusText := s}, acc.2)
    | .jnull => acc
    | _ => (acc.1, acc.2 <|> some "json: cannot unmarshal value into field statusText of type string")
  else if f.1 = "message" then
    match f.2 with
    | .jstr s => ({acc.1 with message := s}, acc.2)
    | .jnull => acc
    | _ => (acc.1, acc.2 <|> some "json: cannot unmarshal value into field message of type string")
  else if f.1 = "data" then
    ({acc.1 with data := some f.2}, acc.2)
  else acc

/-- json.Unmarshal of a body into model.BaseResponse: null is a no-op, an
object is decoded field by field (later duplicates overwrite, any type
error surfaces), anything else is a type error. -/
def unmarshalBase : JValue → Except String BaseResponse
  | .jnull => .ok zeroBase
  | .jobj fs =>
    match fs.foldl decBaseField (zeroBase, none) with
    | (b, none) => .ok b
    | (_, some e) => .error e
  | _ => .error "json: cannot unmarshal value into Go value of type model.BaseResponse"

/-- The error ParseResponse builds for a non-200 envelope code. -/
def apiErrMsg (b : BaseResponse) : String :=
  "API error: " ++ b.message ++ " (code: " ++ toString b.code ++ ")"

/-- Client.ParseResponse on an already-read body: try the BaseResponse
envelope first; if that unmarshal fails, fall back to decoding the body
directly into the target; with an envelope, a non-200 code is an API error
(the target untouched), and a 200 code decodes the data field into the
target (a nil RawMessage being the empty-input unmarshal error).  The
decoding of the caller's target type is the function parameter decodeInto,
which returns the updated target and the error, if any. -/
def parseResponse {α : Type} (decodeInto : JValue → α → α × Option String)
    (body : JValue) (v : α) : α × Option String :=
  match unmarshalBase body with
  | .error _ => decodeInto body v
  | .ok base =>
    if base.code ≠ 200 then (v, some (apiErrMsg base))
    else
      match base.data with
      | none => (v, some "unexpected end of JSON input")
      | some d => decodeInto d v

/-- model.CreateQuestionGuideResponse (src/model/chat.go): a concrete
target type ParseResponse is used with (api/chat CreateQuestionGuide). -/
structure CreateQuestionGuideResponse where
  questions : List String

/-- One element of a JSON array decoded into a Go string: null is a no-op
on the zero string, a non-string is a type error. -/
def decStrElem : JValue → String × Option String
  | .jstr s => (s, none)
  | .jnull => ("", none)
  | _ => ("", some "json: cannot unmarshal value into Go value of type string")

/-- The first recorded error of a list, if any. -/
def firstSome : List (Option String) → Option String
  | [] => none
  | some e :: _ => some e
  | none :: rest => firstSome rest

/-- One field of a JSON object decoded into CreateQuestionGuideResponse,
Go-style: questions takes an array of strings, null is a no-op, unknown
fields are skipped. -/
def decCQGField (acc : CreateQuestionGuideResponse × Option String)
    (f : String × JValue) : CreateQuestionGuideResponse × Option String :=
  if f.1 = "questions" then
    match f.2 with
    | .jarr xs =>
      let es := xs.map decStrElem
      (⟨es.map (fun p => p.1)⟩, acc.2 <|> firstSome (es.map (fun p => p.2)))
    | .jnull => acc
    | _ => (acc.1, acc.2 <|> some "json: cannot unmarshal value into field questions of type []string")
  else acc

/-- json.Unmarshal of a body into model.CreateQuestionGuideResponse. -/
def decodeCQG (j : JValue) (v : CreateQuestionGuideResponse) :
    CreateQuestionGuideResponse × Option String :=
  match j with
  | .jnull => (v, none)
  | .jobj fs => fs.foldl decCQGField (v, none)
  | _ => (v, some "json: cannot unmarshal value into Go value of type model.CreateQuestionGuideResponse")

/-- The effective value of a field of a JSON object under Go decoding
(later duplicates overwrite earlier ones): the last binding of the key. -/
def jlookup (fs : List (String × JValue)) (k : String) : Option JValue :=
  ((fs.filter (fun p => p.1 == k)).getLast?).map (fun p => p.2)

/-- C10 counterexample: a response body that is a JSON object whose code
field is the string x — in particular absent-or-not-200 as an integer — on
which ParseResponse, with the question-guide response as target, returns no
error and fills the target from the body: the envelope unmarshal fails on
the ill-typed code field, so the direct-decode fallback runs and succeeds. -/
theorem parseResponseFallbackModifies_cex :
    jlookup [("code", JValue.jstr "x"), ("questions", JValue.jarr [JValue.jstr "a"])]
        "code" = some (JValue.jstr "x")
    ∧ JValue.jstr "x" ≠ JValue.jnum 200
    ∧ parseResponse decodeCQG
        (JValue.jobj [("code", JValue.jstr "x"), ("questions", JValue.jarr [JValue.jstr "a"])])
        ⟨[]⟩
      = (⟨["a"]⟩, none)
    ∧ (⟨["a"]⟩ : CreateQuestionGuideResponse) ≠ ⟨[]⟩ := by
  refine ⟨rfl, fun h => JValue.noConfusion h, rfl, fun h => ?_⟩
  have : (["a"] : List String) = [] := congrArg CreateQuestionGuideResponse.questions h
  exact List.noConfusion this

/-- C10 amended: ParseResponse falls back to decoding the body directly
into the target exactly when the body fails to unmarshal into BaseResponse
(so the fallback can modify the target and succeed even when an ill-typed
code field is present and not 200); whenever the envelope does unmarshal,
a code other than 200 — including the zero code of an absent field —
yields the API error with the target untouched, and a 200 code decodes
only the data field into the target. -/
theorem parseResponseEnvelope {α : Type} (decodeInto : JValue → α → α × Option String)
    (v : α) (body : JValue) (base : BaseResponse) (e : String) (d : JValue) :
    (unmarshalBase body = .error e →
      parseResponse decodeInto body v = decodeInto body v)
    ∧ (unmarshalBase body = .ok base → base.code ≠ 200 →
        parseResponse decodeInto body v = (v, some (apiErrMsg base)))
    ∧ (unmarshalBase body = .ok base → base.code = 200 → base.data = some d →
        parseResponse decodeInto body v = decodeInto d v) := by
  refine ⟨?_, ?_, ?_⟩
  · intro hu
    simp [parseResponse, hu]
  · intro hu hc
    simp [parseResponse, hu, hc]
  · intro hu hc hd
    simp [parseResponse, hu, hc, hd]

theorem parseResponseEnvelope_witness :
    parseResponse decodeCQG
        (JValue.jobj [("code", JValue.jnum 500), ("message", JValue.jstr "bad")]) ⟨[]⟩
      = (⟨[]⟩, some (apiErrMsg ⟨500, "", "bad", none⟩))
    ∧ parseResponse decodeCQG (JValue.jnum 3) ⟨[]⟩ = decodeCQG (JValue.jnum 3) ⟨[]⟩ := by
  constructor
  · exact (parseResponseEnvelope decodeCQG ⟨[]⟩
      (JValue.jobj [("code", JValue.jnum 500), ("message", JValue.jstr "bad")])
      ⟨500, "", "bad", none⟩ "" JValue.jnull).2.1 (by rfl) (by decide)
  · exact (parseResponseEnvelope decodeCQG ⟨[]⟩ (JValue.jnum 3)
      zeroBase "json: cannot unmarshal value into Go value of type model.BaseResponse"
      JValue.jnull).1 rfl
